import Mathlib

/-!
Verification development for the KardiaMobile 1L ECG PDF-to-EDF converter.

The Rust sources are shallowly embedded: `f64` arithmetic is modelled by
exact rational arithmetic (`ℚ`), machine integers by `ℤ`/`ℕ`, `Vec`/slices
by `List`, `HashMap` by association lists, fallible functions by `Except`,
and file output by the list of bytes (`List ℕ`) that would be written.
-/

/- ================== src/edf_write.rs ================== -/

/-- Model of `f64::round`: round to nearest, half away from zero. -/
def roundHalfAway (q : ℚ) : ℤ :=
  if 0 ≤ q then ⌊q + 1/2⌋ else ⌈q - 1/2⌉

/-- Model of `f64::clamp(lo, hi)` on rationals: `max lo (min x hi)` (for `lo ≤ hi`). -/
def clampQ (x lo hi : ℚ) : ℚ :=
  max lo (min x hi)

/-- Model of `voltage_to_digital` from src/edf_write.rs lines 15–20:
`scaled = dig_min + (voltage - phys_min) / (phys_max - phys_min) * (dig_max - dig_min)`
then `scaled.round().clamp(-32768.0, 32767.0) as i16` (round first, then clamp). -/
def voltage_to_digital (voltage phys_min phys_max : ℚ) : ℤ :=
  let dig_min : ℚ := -32768
  let dig_max : ℚ := 32767
  let scaled := dig_min + (voltage - phys_min) / (phys_max - phys_min) * (dig_max - dig_min)
  max (-32768) (min (roundHalfAway scaled) 32767)

/-- The inverse digital-mapping formula from the spec's round-trip property:
`phys_min + (d - dig_min) / (dig_max - dig_min) * (phys_max - phys_min)`. -/
def digitalToVoltage (d : ℤ) (phys_min phys_max : ℚ) : ℚ :=
  phys_min + ((d : ℚ) - (-32768)) / (32767 - (-32768)) * (phys_max - phys_min)

/- Helper lemmas about `roundHalfAway`. -/

theorem roundHalfAway_intCast (n : ℤ) : roundHalfAway (n : ℚ) = n := by
  unfold roundHalfAway
  by_cases h : (0 : ℚ) ≤ (n : ℚ)
  · rw [if_pos h]
    have : ⌊(n : ℚ) + 1/2⌋ = n + ⌊(1/2 : ℚ)⌋ := Int.floor_int_add n (1/2)
    rw [this]
    norm_num
  · rw [if_neg h]
    have : ⌈(n : ℚ) - 1/2⌉ = n + ⌈(-(1/2) : ℚ)⌉ := by
      rw [sub_eq_add_neg, add_comm, Int.ceil_add_int, add_comm]
    rw [this]
    norm_num

theorem roundHalfAway_mono {a b : ℚ} (h : a ≤ b) :
    roundHalfAway a ≤ roundHalfAway b := by
  unfold roundHalfAway
  by_cases ha : 0 ≤ a
  · have hb : 0 ≤ b := le_trans ha h
    rw [if_pos ha, if_pos hb]
    exact Int.floor_le_floor (by linarith)
  · by_cases hb : 0 ≤ b
    · rw [if_neg ha, if_pos hb]
      have h1 : ⌈a - 1/2⌉ ≤ 0 := by
        rw [Int.ceil_le]
        push_neg at ha
        push_cast
        linarith
      have h2 : 0 ≤ ⌊b + 1/2⌋ := by
        rw [Int.le_floor]
        push_cast
        linarith
      omega
    · rw [if_neg ha, if_neg hb]
      exact Int.ceil_le_ceil (by linarith)

theorem roundHalfAway_err (q : ℚ) : |(roundHalfAway q : ℚ) - q| ≤ 1/2 := by
  unfold roundHalfAway
  by_cases h : 0 ≤ q
  · rw [if_pos h, abs_le]
    constructor
    · have := Int.lt_floor_add_one (q + 1/2)
      linarith
    · have := Int.floor_le (q + 1/2)
      linarith
  · rw [if_neg h, abs_le]
    constructor
    · have := Int.le_ceil (q - 1/2)
      linarith
    · have := Int.ceil_lt_add_one (q - 1/2)
      linarith

theorem roundHalfAway_min (a b : ℚ) :
    roundHalfAway (min a b) = min (roundHalfAway a) (roundHalfAway b) := by
  rcases le_total a b with h | h
  · rw [min_eq_left h, min_eq_left (roundHalfAway_mono h)]
  · rw [min_eq_right h, min_eq_right (roundHalfAway_mono h)]

theorem roundHalfAway_max (a b : ℚ) :
    roundHalfAway (max a b) = max (roundHalfAway a) (roundHalfAway b) := by
  rcases le_total a b with h | h
  · rw [max_eq_right h, max_eq_right (roundHalfAway_mono h)]
  · rw [max_eq_left h, max_eq_left (roundHalfAway_mono h)]

/-- C1: for `phys_min < phys_max`, `voltage_to_digital` returns exactly
`round(clamp(dig_min + (v - phys_min)/(phys_max - phys_min) * (dig_max - dig_min),
dig_min, dig_max))` with `dig_min = -32768`, `dig_max = 32767`: the code's
round-then-clamp composition agrees with the spec's clamp-then-round formula. -/
theorem voltage_to_digital_eq_round_clamp (v phys_min phys_max : ℚ)
    (h : phys_min < phys_max) :
    voltage_to_digital v phys_min phys_max =
      roundHalfAway (clampQ
        (-32768 + (v - phys_min) / (phys_max - phys_min) * (32767 - (-32768)))
        (-32768) 32767) := by
  unfold voltage_to_digital clampQ
  rw [roundHalfAway_max, roundHalfAway_min]
  have h1 : roundHalfAway ((-32768 : ℚ)) = -32768 := by
    have := roundHalfAway_intCast (-32768)
    push_cast at this
    exact this
  have h2 : roundHalfAway ((32767 : ℚ)) = 32767 := by
    have := roundHalfAway_intCast 32767
    push_cast at this
    exact this
  rw [h1, h2]

/-- Witness for C1 at `v = 0`, `phys_min = -1`, `phys_max = 1`. -/
theorem voltage_to_digital_eq_round_clamp_witness :
    (-1 : ℚ) < 1 ∧
      voltage_to_digital 0 (-1) 1 =
        roundHalfAway (clampQ
          (-32768 + (0 - (-1)) / (1 - (-1)) * (32767 - (-32768))) (-32768) 32767) :=
  ⟨by norm_num, voltage_to_digital_eq_round_clamp 0 (-1) 1 (by norm_num)⟩

/-- C4: for `phys_min ≤ v ≤ phys_max` with `phys_min < phys_max`, decoding the
encoded sample through the inverse digital-mapping formula recovers `v` to
within one digitization step `(phys_max - phys_min) / 65535`. -/
theorem voltage_roundtrip (v phys_min phys_max : ℚ)
    (hlt : phys_min < phys_max) (hlo : phys_min ≤ v) (hhi : v ≤ phys_max) :
    |digitalToVoltage (voltage_to_digital v phys_min phys_max) phys_min phys_max - v|
      ≤ (phys_max - phys_min) / 65535 := by
  set D := phys_max - phys_min with hD
  have hDpos : 0 < D := by simp [hD]; linarith
  set t : ℚ := (v - phys_min) / D with ht
  have ht0 : 0 ≤ t := div_nonneg (by linarith) (le_of_lt hDpos)
  have ht1 : t ≤ 1 := by
    rw [ht, div_le_one hDpos]
    linarith
  set s : ℚ := -32768 + t * 65535 with hs
  have hs_lo : (-32768 : ℚ) ≤ s := by rw [hs]; nlinarith
  have hs_hi : s ≤ 32767 := by rw [hs]; nlinarith
  set r : ℤ := roundHalfAway s with hr
  have hr_lo : (-32768 : ℤ) ≤ r := by
    have := roundHalfAway_mono hs_lo
    have h1 : roundHalfAway ((-32768 : ℚ)) = -32768 := by
      have := roundHalfAway_intCast (-32768); push_cast at this; exact this
    rw [h1] at this
    exact this
  have hr_hi : r ≤ 32767 := by
    have := roundHalfAway_mono hs_hi
    have h2 : roundHalfAway ((32767 : ℚ)) = 32767 := by
      have := roundHalfAway_intCast 32767; push_cast at this; exact this
    rw [h2] at this
    exact this
  have henc : voltage_to_digital v phys_min phys_max = r := by
    unfold voltage_to_digital
    have hscaled : -32768 + (v - phys_min) / (phys_max - phys_min) * (32767 - (-32768)) = s := by
      rw [hs, ht, hD]
      ring
    simp only
    rw [show ((32767 : ℚ) - (-32768)) = 65535 by norm_num] at hscaled ⊢
    rw [hscaled, ← hr]
    omega
  rw [henc]
  have hdec : digitalToVoltage r phys_min phys_max - v = ((r : ℚ) - s) / 65535 * D := by
    unfold digitalToVoltage
    have hv : v = phys_min + t * D := by
      rw [ht]
      field_simp
    rw [hv, hs]
    ring
  rw [hdec, abs_mul, abs_div]
  have herr : |(r : ℚ) - s| ≤ 1/2 := roundHalfAway_err s
  have hDabs : |D| = D := abs_of_pos hDpos
  rw [hDabs, show |(65535 : ℚ)| = 65535 by norm_num]
  rw [div_mul_eq_mul_div, div_le_div_iff (by norm_num) (by norm_num)]
  nlinarith

/-- Witness for C4 at `v = 0`, `phys_min = -1`, `phys_max = 1`. -/
theorem voltage_roundtrip_witness :
    (-1 : ℚ) < 1 ∧ (-1 : ℚ) ≤ 0 ∧ (0 : ℚ) ≤ 1 ∧
      |digitalToVoltage (voltage_to_digital 0 (-1) 1) (-1) 1 - 0| ≤ (1 - (-1)) / 65535 :=
  ⟨by norm_num, by norm_num, by norm_num,
    voltage_roundtrip 0 (-1) 1 (by norm_num) (by norm_num) (by norm_num)⟩

/-- Bytes of an ASCII string (all strings written by the encoder are ASCII,
where UTF-8 bytes and code points coincide). -/
def strBytes (s : String) : List ℕ :=
  s.data.map Char.toNat

/-- Model of `write_field` from src/edf_write.rs lines 6–12: right-pad the value's bytes
with spaces to `width`, then truncate to exactly `width`. -/
def write_field_bytes (value : String) (width : ℕ) : List ℕ :=
  (strBytes value ++ List.replicate (width - (strBytes value).length) 32).take width

/-- Model of `make_annotation_bytes` from src/edf_write.rs lines 23–29: the TAL text
`"+<onset>\x14\x14"`, null-padded (or truncated) to `annotation_samples * 2`
bytes. -/
def make_tal_bytes (onset_seconds tal_samples : ℕ) : List ℕ :=
  let tal := "+" ++ toString onset_seconds ++ "\x14\x14"
  let b := strBytes tal
  let total := tal_samples * 2
  b.take total ++ List.replicate (total - b.length) 0

/-- Model of `i16::to_le_bytes`: the two little-endian bytes of a 16-bit value. -/
def i16_le_bytes (d : ℤ) : List ℕ :=
  let u := (d % 65536).toNat
  [u % 256, u / 256]

/-- Model of `signal.iter().fold(f64::INFINITY, f64::min) - 0.1` from src/edf_write.rs
line 41.  `ℚ` has no infinity; for the empty signal (where the Rust fold keeps
its infinite sentinel) the value `0 - 0.1` stands in — it is consumed only by
header text formatting, and an empty signal produces no data records. -/
def physMin (signal : List ℚ) : ℚ :=
  (match signal with
   | [] => 0
   | x :: xs => xs.foldl min x) - 1/10

/-- Model of `signal.iter().fold(f64::NEG_INFINITY, f64::max) + 0.1` from
src/edf_write.rs line 42 (same empty-signal caveat as `physMin`). -/
def physMax (signal : List ℚ) : ℚ :=
  (match signal with
   | [] => 0
   | x :: xs => xs.foldl max x) + 1/10

/-- The per-sample physical value from src/edf_write.rs lines 109–114:
`signal[idx]` when in range, `0.0` past the end of the signal. -/
def sampleVal (signal : List ℚ) (idx : ℕ) : ℚ :=
  if h : idx < signal.length then signal.get ⟨idx, h⟩ else 0

/-- One record's block of ECG sample bytes (src/edf_write.rs lines 106–117):
`samples_per_record` digitized samples, each as two little-endian bytes. -/
def edf_sample_block (signal : List ℚ) (spr rec : ℕ) : List ℕ :=
  (List.range spr).flatMap (fun i =>
    i16_le_bytes (voltage_to_digital (sampleVal signal (rec * spr + i))
      (physMin signal) (physMax signal)))

/-- The data-record section of the output file (src/edf_write.rs lines 104–122):
`n_records = (len + spr - 1) / spr` records, each holding the sample block
followed by the TAL block (`record_duration = 1`, `annotation_samples = 57`). -/
def edf_data_records (signal : List ℚ) (sample_rate : ℕ) : List ℕ :=
  (List.range ((signal.length + sample_rate * 1 - 1) / (sample_rate * 1))).flatMap
    (fun rec => edf_sample_block signal (sample_rate * 1) rec
      ++ make_tal_bytes (rec * 1) 57)

/-- Model of Rust fixed-precision number formatting on a rational, sign first, rounding the exact
value to `prec` decimal places (the binary-float decimal rendering is
idealized to exact rational rounding). -/
def formatFixed (val : ℚ) (prec : ℕ) : String :=
  let sign := if val < 0 then "-" else ""
  let n := (roundHalfAway (|val| * 10 ^ prec)).toNat
  if prec = 0 then sign ++ toString n
  else
    let fs := toString (n % 10 ^ prec)
    sign ++ toString (n / 10 ^ prec) ++ "." ++
      String.mk (List.replicate (prec - fs.length) '0') ++ fs

/-- Model of `format_edf_num` from src/edf_write.rs lines 128–137: try precisions
6 down to 0, returning the first rendering of at most 8 characters, falling
back to the 0-decimal rendering. -/
def format_edf_num (val : ℚ) : String :=
  ((((List.range 7).reverse.map (fun p => formatFixed val p)).find?
    (fun s => decide (s.length ≤ 8))).getD (formatFixed val 0))

/-- The 256-byte main header plus the two 256-byte signal headers of
src/edf_write.rs lines 46–102, in source order. -/
def edf_header (signal : List ℚ) (sample_rate : ℕ) : List ℕ :=
  write_field_bytes "0" 8 ++
  write_field_bytes "X M 04-MAY-1970 Joel_Henderson" 80 ++
  write_field_bytes "Startdate 13-FEB-2026 X X KardiaMobile_1L" 80 ++
  write_field_bytes "13.02.26" 8 ++
  write_field_bytes "22.42.00" 8 ++
  write_field_bytes (toString (256 + 2 * 256)) 8 ++
  write_field_bytes "EDF+C" 44 ++
  write_field_bytes (toString ((signal.length + sample_rate * 1 - 1) / (sample_rate * 1))) 8 ++
  write_field_bytes (toString 1) 8 ++
  write_field_bytes (toString 2) 4 ++
  write_field_bytes "EKG I" 16 ++
  write_field_bytes "EDF Annotations" 16 ++
  write_field_bytes "KardiaMobile 1L electrode" 80 ++
  write_field_bytes "" 80 ++
  write_field_bytes "mV" 8 ++
  write_field_bytes "" 8 ++
  write_field_bytes (format_edf_num (physMin signal)) 8 ++
  write_field_bytes "-1" 8 ++
  write_field_bytes (format_edf_num (physMax signal)) 8 ++
  write_field_bytes "1" 8 ++
  write_field_bytes "-32768" 8 ++
  write_field_bytes "-32768" 8 ++
  write_field_bytes "32767" 8 ++
  write_field_bytes "32767" 8 ++
  write_field_bytes "Enhanced Filter, 50Hz mains" 80 ++
  write_field_bytes "" 80 ++
  write_field_bytes (toString (sample_rate * 1)) 8 ++
  write_field_bytes (toString 57) 8 ++
  write_field_bytes "" 32 ++
  write_field_bytes "" 32

/-- Model of `write_edf` from src/edf_write.rs lines 32–125, as the byte sequence the
call appends to the created file: header bytes then data-record bytes. -/
def write_edf (signal : List ℚ) (sample_rate : ℕ) : List ℕ :=
  edf_header signal sample_rate ++ edf_data_records signal sample_rate

/- ================== src/pdf_extract.rs data model ================== -/

/-- Model of `Point` from src/pdf_extract.rs lines 6–10: top-left-origin coordinates. -/
structure Point where
  x : ℚ
  y : ℚ
deriving DecidableEq

/-- Model of `DrawingPath` from src/pdf_extract.rs lines 12–21. -/
structure DrawingPath where
  segments : List (Point × Point)
  color : ℚ × ℚ × ℚ
  width : ℚ
deriving DecidableEq

/- ================== src/ecg_process.rs ================== -/

/- ================== dedup / voltage conversion ================== -/

/-- Loop body of the deduplication of src/ecg_process.rs lines 143–148: a point
is appended only when its x differs from the last kept point's x by more
than 0.01. -/
def dedupGo (last : Point) : List Point → List Point
  | [] => []
  | q :: qs => if |q.x - last.x| > 1/100 then q :: dedupGo q qs else dedupGo last qs

/-- The deduplication of src/ecg_process.rs lines 143–148: start from the first
point, then keep each point whose x differs by more than 0.01 from the last
kept point. -/
def dedupPoints : List Point → List Point
  | [] => []
  | p :: rest => p :: dedupGo p rest

/-- Model of `points_to_voltage` from src/ecg_process.rs lines 120–125:
`voltage = (baseline_y - y) / cal_pt_per_mv`. -/
def points_to_voltage (points : List Point) (baseline_y cal_pt_per_mv : ℚ) : List ℚ :=
  points.map (fun p => (baseline_y - p.y) / cal_pt_per_mv)

theorem dedupGo_sublist (ps : List Point) : ∀ last, List.Sublist (dedupGo last ps) ps := by
  induction ps with
  | nil => intro last; exact List.Sublist.refl []
  | cons q qs ih =>
    intro last
    unfold dedupGo
    by_cases h : |q.x - last.x| > 1/100
    · rw [if_pos h]
      exact List.Sublist.cons₂ q (ih q)
    · rw [if_neg h]
      exact List.Sublist.cons q (ih last)

theorem dedupGo_chain (ps : List Point) :
    ∀ last, List.Chain (fun a b => |b.x - a.x| > 1/100) last (dedupGo last ps) := by
  induction ps with
  | nil => intro last; exact List.Chain.nil
  | cons q qs ih =>
    intro last
    unfold dedupGo
    by_cases h : |q.x - last.x| > 1/100
    · rw [if_pos h]
      exact List.Chain.cons h (ih q)
    · rw [if_neg h]
      exact ih last

/-- C7: the deduplication step keeps a subsequence of the input (so it never
reorders or modifies points), keeps the first point, consecutive kept points
always differ in x by more than 0.01, and on x-values
`[1.0, 1.005, 2.0, 2.0]` it keeps exactly `[1.0, 2.0]`. -/
theorem dedup_properties (ps : List Point) :
    List.Sublist (dedupPoints ps) ps ∧
    (dedupPoints ps).head? = ps.head? ∧
    List.Chain' (fun a b => |b.x - a.x| > 1/100) (dedupPoints ps) ∧
    (dedupPoints [⟨1, 0⟩, ⟨1005/1000, 0⟩, ⟨2, 0⟩, ⟨2, 0⟩]).map (fun p => p.x) = [1, 2] := by
  have hconcrete :
      (dedupPoints [⟨1, 0⟩, ⟨1005/1000, 0⟩, ⟨2, 0⟩, ⟨2, 0⟩]).map (fun p => p.x) = [1, 2] := by
    norm_num [dedupPoints, dedupGo, lt_abs]
  cases ps with
  | nil => exact ⟨List.Sublist.refl [], rfl, trivial, hconcrete⟩
  | cons p rest =>
    refine ⟨List.Sublist.cons₂ p (dedupGo_sublist rest p), rfl, ?_, hconcrete⟩
    exact dedupGo_chain rest p


/-- The fatal error kinds of src/ecg_process.rs (`anyhow!` messages). -/
inductive EcgError where
  | baselinesNotFound
  | incompleteRowSet (row : ℕ)
deriving DecidableEq

/-- The candidate baseline y-values of one path, from src/ecg_process.rs
lines 26–35: collect `p1.y` of every segment with `|p1.y - p2.y| < 0.01` and
`|p2.x - p1.x| > 500`, then keep those with `y < 760`. -/
def baselineCandYs (p : DrawingPath) : List ℚ :=
  ((p.segments.filter (fun s =>
      decide (|s.1.y - s.2.y| < 1/100 ∧ |s.2.x - s.1.x| > 500))).map
    (fun s => s.1.y)).filter (fun y => decide (y < 760))

/-- Model of `extract_baselines` from src/ecg_process.rs lines 10–41: scan paths in
order; skip non-black paths, widths outside `(0.35, 0.45)`, and paths with
fewer than 4 segments; return the first 4 visible candidate y-values of the
first path that yields at least 4 of them, else `BaselinesNotFound`. -/
def extract_baselines : List DrawingPath → Except EcgError (List ℚ)
  | [] => .error .baselinesNotFound
  | p :: rest =>
    if p.color.1 ≠ 0 ∨ p.color.2.1 ≠ 0 ∨ p.color.2.2 ≠ 0 then extract_baselines rest
    else if ¬(7/20 < p.width ∧ p.width < 9/20) then extract_baselines rest
    else if p.segments.length < 4 then extract_baselines rest
    else if 4 ≤ (baselineCandYs p).length then .ok ((baselineCandYs p).take 4)
    else extract_baselines rest

/-- The qualification predicate of claim C2: exactly black, width strictly
inside `(0.35, 0.45)`, at least 4 segments, and at least 4 candidate
horizontal rulings in the visible band. -/
def baselineQualifies (p : DrawingPath) : Prop :=
  p.color = (0, 0, 0) ∧ 7/20 < p.width ∧ p.width < 9/20 ∧
    4 ≤ p.segments.length ∧ 4 ≤ (baselineCandYs p).length

instance (p : DrawingPath) : Decidable (baselineQualifies p) := by
  unfold baselineQualifies
  infer_instance

/-- Filtering the mapped y-values after the horizontality/span filter equals a
single filter over segments with the conjoined condition. -/
theorem baselineCandYs_as_segments (l : List (Point × Point)) :
    (((l.filter (fun s =>
        decide (|s.1.y - s.2.y| < 1/100 ∧ |s.2.x - s.1.x| > 500))).map
      (fun s => s.1.y)).filter (fun y => decide (y < 760))) =
    (l.filter (fun s =>
        decide (|s.1.y - s.2.y| < 1/100 ∧ |s.2.x - s.1.x| > 500 ∧ s.1.y < 760))).map
      (fun s => s.1.y) := by
  induction l with
  | nil => rfl
  | cons s t ih =>
    by_cases h1 : |s.1.y - s.2.y| < 1/100 ∧ |s.2.x - s.1.x| > 500
    · by_cases h2 : s.1.y < 760
      · simp only [List.filter_cons, decide_eq_true_eq]
        rw [if_pos h1, if_pos ⟨h1.1, h1.2, h2⟩]
        simp only [List.map_cons, List.filter_cons, decide_eq_true_eq]
        rw [if_pos h2, ih]
      · simp only [List.filter_cons, decide_eq_true_eq]
        rw [if_pos h1, if_neg (fun h => h2 h.2.2)]
        simp only [List.map_cons, List.filter_cons, decide_eq_true_eq]
        rw [if_neg h2, ih]
    · simp only [List.filter_cons, decide_eq_true_eq]
      rw [if_neg h1, if_neg (fun h => h1 ⟨h.1, h.2.1⟩), ih]

/-- A non-qualifying path is skipped by `extract_baselines`. -/
theorem extract_baselines_skip (p : DrawingPath) (rest : List DrawingPath)
    (hnq : ¬ baselineQualifies p) :
    extract_baselines (p :: rest) = extract_baselines rest := by
  simp only [extract_baselines]
  by_cases hc : p.color.1 ≠ 0 ∨ p.color.2.1 ≠ 0 ∨ p.color.2.2 ≠ 0
  · rw [if_pos hc]
  · rw [if_neg hc]
    by_cases hw : 7/20 < p.width ∧ p.width < 9/20
    · rw [if_neg (not_not_intro hw)]
      by_cases hl : p.segments.length < 4
      · rw [if_pos hl]
      · rw [if_neg hl]
        by_cases hn : 4 ≤ (baselineCandYs p).length
        · exfalso
          apply hnq
          refine ⟨?_, hw.1, hw.2, by omega, hn⟩
          push_neg at hc
          obtain ⟨h1, h2, h3⟩ := hc
          have hcolor : p.color = (p.color.1, p.color.2.1, p.color.2.2) := rfl
          rw [hcolor, h1, h2, h3]
        · rw [if_neg hn]
    · rw [if_pos hw]

/-- A qualifying path makes `extract_baselines` return its first 4 candidate
y-values. -/
theorem extract_baselines_hit (p : DrawingPath) (rest : List DrawingPath)
    (hq : baselineQualifies p) :
    extract_baselines (p :: rest) = .ok ((baselineCandYs p).take 4) := by
  obtain ⟨hcol, hw1, hw2, hlen, hn⟩ := hq
  simp only [extract_baselines]
  have hc : ¬(p.color.1 ≠ 0 ∨ p.color.2.1 ≠ 0 ∨ p.color.2.2 ≠ 0) := by
    simp [hcol]
  rw [if_neg hc, if_neg (not_not_intro ⟨hw1, hw2⟩), if_neg (by omega), if_pos hn]

/-- C2: `extract_baselines` succeeds exactly when some path qualifies (black,
width in `(0.35, 0.45)`, ≥ 4 segments, ≥ 4 horizontal ≥500-span segments with
`y < 760`); on success the result is the first 4 qualifying y-values, in
segment order, of the first qualifying path; otherwise `BaselinesNotFound`. -/
theorem extract_baselines_characterization (paths : List DrawingPath) :
    (∀ p : DrawingPath, baselineCandYs p =
      (p.segments.filter (fun s =>
        decide (|s.1.y - s.2.y| < 1/100 ∧ |s.2.x - s.1.x| > 500 ∧ s.1.y < 760))).map
        (fun s => s.1.y)) ∧
    match extract_baselines paths with
    | .ok ys => ∃ pre p post, paths = pre ++ p :: post ∧
        (∀ q ∈ pre, ¬ baselineQualifies q) ∧ baselineQualifies p ∧
        ys = (baselineCandYs p).take 4
    | .error e => e = .baselinesNotFound ∧ ∀ p ∈ paths, ¬ baselineQualifies p := by
  refine ⟨fun p => baselineCandYs_as_segments p.segments, ?_⟩
  induction paths with
  | nil => exact ⟨rfl, by simp⟩
  | cons p rest ih =>
    by_cases hq : baselineQualifies p
    · rw [extract_baselines_hit p rest hq]
      exact ⟨[], p, rest, rfl, by simp, hq, rfl⟩
    · rw [extract_baselines_skip p rest hq]
      cases hres : extract_baselines rest with
      | ok ys =>
        rw [hres] at ih
        obtain ⟨pre, q, post, hsplit, hpre, hq', hys⟩ := ih
        refine ⟨p :: pre, q, post, by rw [hsplit]; rfl, ?_, hq', hys⟩
        rintro r hr
        rcases List.mem_cons.mp hr with rfl | hr
        · exact hq
        · exact hpre r hr
      | error e =>
        rw [hres] at ih
        refine ⟨ih.1, ?_⟩
        rintro r hr
        rcases List.mem_cons.mp hr with rfl | hr
        · exact hq
        · exact ih.2 r hr
theorem natCeilDiv_eq_ceil (a b : ℕ) (hb : 0 < b) :
    (((a + b - 1) / b : ℕ) : ℤ) = ⌈(a : ℚ) / (b : ℚ)⌉ := by
  have hbQ : (0 : ℚ) < b := by exact_mod_cast hb
  rcases Nat.eq_zero_or_pos a with ha | ha
  · subst ha
    rw [Nat.zero_add, Nat.div_eq_of_lt (by omega)]
    simp
  · set q := (a + b - 1) / b with hq
    have h2 : a + b - 1 < (q + 1) * b := by
      rw [hq]
      exact (Nat.div_lt_iff_lt_mul hb).mp (by omega)
    have h2' : a + b - 1 < q * b + b := by
      rw [Nat.succ_mul] at h2
      exact h2
    have h3 : q * b ≤ a + b - 1 := Nat.div_mul_le_self _ _
    have h1 : a ≤ q * b := by omega
    have h4 : q * b < a + b := by omega
    symm
    rw [Int.ceil_eq_iff]
    constructor
    · have hcast : (q : ℚ) * b < (a : ℚ) + b := by exact_mod_cast h4
      rw [show ((q : ℤ) : ℚ) - 1 = ((q : ℚ) - 1) by push_cast; ring]
      rw [lt_div_iff hbQ]
      nlinarith
    · rw [div_le_iff hbQ]
      rw [show ((q : ℤ) : ℚ) = (q : ℚ) by push_cast; ring]
      exact_mod_cast h1

/-- Length of a flatMap whose pieces all have length 2. -/
theorem length_flatMap_two {α : Type} (l : List α) (f : α → List ℕ)
    (h : ∀ x, (f x).length = 2) : (l.flatMap f).length = 2 * l.length := by
  induction l with
  | nil => simp
  | cons x xs ih =>
    simp [List.flatMap_cons, h x, ih]
    omega

/-- C3: `write_edf` is the header followed by
`ceil(len(signal) / samples_per_record)` data records
(`samples_per_record = sample_rate * 1`), each record being exactly
`samples_per_record` two-byte little-endian samples followed by one 114-byte
annotation block, with indices at or past the signal's end encoded from the
physical value `0.0`; a 300-sample signal at 300 Hz yields exactly 1 record
of 300 two-byte samples plus the annotation block.  The positive sample rate
is written `k + 1`. -/
theorem write_edf_record_structure (signal : List ℚ) (k : ℕ) :
    write_edf signal (k + 1) = edf_header signal (k + 1) ++ edf_data_records signal (k + 1) ∧
    (((signal.length + (k + 1) * 1 - 1) / ((k + 1) * 1) : ℕ) : ℤ) =
      ⌈(signal.length : ℚ) / (((k + 1) * 1 : ℕ) : ℚ)⌉ ∧
    edf_data_records signal (k + 1) =
      ((List.range ((signal.length + (k + 1) * 1 - 1) / ((k + 1) * 1))).map
        (fun rec => edf_sample_block signal ((k + 1) * 1) rec ++ make_tal_bytes rec 57)).flatten ∧
    (∀ spr rec : ℕ, (edf_sample_block signal spr rec).length = 2 * spr) ∧
    (∀ onset : ℕ, (make_tal_bytes onset 57).length = 114) ∧
    (∀ d : ℤ, (i16_le_bytes d).length = 2) ∧
    (∀ idx : ℕ, signal.length ≤ idx → sampleVal signal idx = 0) ∧
    (signal.length = 300 → k + 1 = 300 →
      (signal.length + (k + 1) * 1 - 1) / ((k + 1) * 1) = 1 ∧
      (edf_data_records signal (k + 1)).length = 300 * 2 + 114) := by
  have hlen_i16 : ∀ d : ℤ, (i16_le_bytes d).length = 2 := fun d => rfl
  have hlen_block : ∀ spr rec : ℕ, (edf_sample_block signal spr rec).length = 2 * spr := by
    intro spr rec
    unfold edf_sample_block
    rw [length_flatMap_two _ _ (fun i => hlen_i16 _), List.length_range]
  have hlen_tal : ∀ onset : ℕ, (make_tal_bytes onset 57).length = 114 := by
    intro onset
    unfold make_tal_bytes
    simp only [List.length_append, List.length_take, List.length_replicate]
    omega
  have hstruct : edf_data_records signal (k + 1) =
      ((List.range ((signal.length + (k + 1) * 1 - 1) / ((k + 1) * 1))).map
        (fun rec => edf_sample_block signal ((k + 1) * 1) rec ++ make_tal_bytes rec 57)).flatten := by
    unfold edf_data_records
    rw [List.flatMap_def]
    simp [Nat.mul_one]
  refine ⟨rfl, natCeilDiv_eq_ceil _ _ (by omega), hstruct, hlen_block, hlen_tal, hlen_i16,
    ?_, ?_⟩
  · intro idx h
    unfold sampleVal
    rw [dif_neg (by omega)]
  · intro h300 hk
    have hn : (signal.length + (k + 1) * 1 - 1) / ((k + 1) * 1) = 1 := by
      rw [h300, hk]
    refine ⟨hn, ?_⟩
    rw [hstruct, hn]
    simp only [show List.range 1 = [0] from rfl, List.map_cons, List.map_nil,
      List.flatten_cons, List.flatten_nil, List.append_nil, List.length_append]
    rw [hlen_block, hlen_tal, hk]

/-- C6: with `phys_min = -1`, `phys_max = 1`, the physical value `0.0` scales to
`-0.5` (the exact midpoint of the asymmetric digital range `[-32768, 32767]`),
which rounds half-away-from-zero to `-1`; the digital result therefore equals
the rounding of the scaled midpoint and differs from `0` by at most one unit. -/
theorem zero_maps_to_digital_midpoint :
    voltage_to_digital 0 (-1) 1 = roundHalfAway (-(1/2)) ∧
      voltage_to_digital 0 (-1) 1 = -1 ∧
      |voltage_to_digital 0 (-1) 1 - 0| ≤ 1 := by
  have hr : roundHalfAway (-(1/2)) = -1 := by
    unfold roundHalfAway
    rw [if_neg (by norm_num)]
    rw [show (-(1/2) : ℚ) - 1/2 = ((-1 : ℤ) : ℚ) by push_cast; ring]
    exact Int.ceil_intCast (-1)
  have hv : voltage_to_digital 0 (-1) 1 = -1 := by
    show max (-32768)
        (min (roundHalfAway (-32768 + (0 - (-1)) / (1 - (-1)) * (32767 - (-32768)))) 32767) = -1
    rw [show (-32768 : ℚ) + (0 - (-1)) / (1 - (-1)) * (32767 - (-32768)) = -(1/2) by norm_num]
    rw [hr]
    omega
  refine ⟨by rw [hv, hr], hv, by rw [hv]; norm_num⟩

/- ================== src/ecg_process.rs: row extraction ================== -/

/-- Point reconstruction walk of src/ecg_process.rs lines 74–83: append a
segment's start point only when it differs from the last appended point by
more than 0.001 on either axis, then always append its end point. -/
def tracePoints (segs : List (Point × Point)) : List Point :=
  segs.foldl (fun pts s =>
    (match pts.getLast? with
     | none => pts ++ [s.1]
     | some lp =>
       if |lp.x - s.1.x| > 1/1000 ∨ |lp.y - s.1.y| > 1/1000 then pts ++ [s.1] else pts)
    ++ [s.2]) []

/-- Nearest-baseline scan of src/ecg_process.rs lines 93–101: fold with
`min_dist = ∞` (modelled as `none`) and `best_row = 0`. -/
def nearestRow (baselines : List ℚ) (y_center : ℚ) : Option ℚ × ℕ :=
  baselines.enum.foldl (fun acc e =>
    match acc.1 with
    | none => (some |y_center - e.2|, e.1)
    | some md => if |y_center - e.2| < md then (some |y_center - e.2|, e.1) else acc)
    (none, 0)

/-- Lookup modelling `HashMap::get` on the association-list model of the row map. -/
def mapGet (m : List (ℕ × List Point)) (k : ℕ) : Option (List Point) :=
  (m.find? (fun e => e.1 == k)).map (fun e => e.2)

/-- Model of `rows.entry(best_row).or_default().extend(points)` on the association-list
model: extend the existing entry, or insert a fresh one. -/
def mapExtend (m : List (ℕ × List Point)) (k : ℕ) (pts : List Point) :
    List (ℕ × List Point) :=
  if ((m.find? (fun e => e.1 == k))).isSome then
    m.map (fun e => if e.1 == k then (e.1, e.2 ++ pts) else e)
  else m ++ [(k, pts)]

/-- Assignment stage of src/ecg_process.rs lines 73–105 for one eligible path:
reconstruct its points, take the mean y, and extend the nearest row when the
distance is below 80 units. -/
def rowAssign (baselines : List ℚ) (m : List (ℕ × List Point)) (p : DrawingPath) :
    List (ℕ × List Point) :=
  let points := tracePoints p.segments
  if points.isEmpty then m
  else
    let y_center := (points.map (fun q => q.y)).sum / (points.length : ℚ)
    let nr := nearestRow baselines y_center
    match nr.1 with
    | none => m
    | some md => if md < 80 then mapExtend m nr.2 points else m

/-- Loop body of src/ecg_process.rs lines 58–106 for one path: the stylistic
fingerprint (black, width in `(0.35, 0.45)`) and segment-count `≥ 40` guards,
then the assignment stage. -/
def rowStep (baselines : List ℚ) (m : List (ℕ × List Point)) (p : DrawingPath) :
    List (ℕ × List Point) :=
  if p.color.1 ≠ 0 ∨ p.color.2.1 ≠ 0 ∨ p.color.2.2 ≠ 0 then m
  else if ¬(7/20 < p.width ∧ p.width < 9/20) then m
  else if p.segments.length < 40 then m
  else rowAssign baselines m p

/-- Final x-sort of each row's points, src/ecg_process.rs lines 109–111. -/
def sortRowPoints (m : List (ℕ × List Point)) : List (ℕ × List Point) :=
  m.map (fun e => (e.1, e.2.mergeSort (fun a b => decide (a.x ≤ b.x))))

/-- Model of `extract_ecg_waveform_rows` from src/ecg_process.rs lines 49–114:
initialize an entry for every baseline index, fold the per-path step over all
paths, then sort each row's points by x. -/
def extract_ecg_waveform_rows (paths : List DrawingPath) (baselines : List ℚ) :
    List (ℕ × List Point) :=
  sortRowPoints (paths.foldl (rowStep baselines)
    ((List.range baselines.length).map (fun i => (i, ([] : List Point)))))

/-- Loop body of `concatenate_to_signal` (src/ecg_process.rs lines 135–165)
for one row index: a missing entry is fatal, an empty row contributes
nothing, a non-empty row contributes its deduplicated points converted to
voltages against its baseline. -/
def concatStep (rows : List (ℕ × List Point)) (baselines : List ℚ) (cal_pt_per_mv : ℚ)
    (acc : List ℚ) (ri : ℕ) : Except EcgError (List ℚ) :=
  match mapGet rows ri with
  | none => .error (.incompleteRowSet ri)
  | some points =>
    if points.isEmpty then pure acc
    else pure (acc ++ points_to_voltage (dedupPoints points) (baselines.getD ri 0) cal_pt_per_mv)

/-- Model of `concatenate_to_signal` from src/ecg_process.rs lines 128–168. -/
def concatenate_to_signal (rows : List (ℕ × List Point)) (baselines : List ℚ)
    (cal_pt_per_mv : ℚ) : Except EcgError (List ℚ) :=
  (List.range baselines.length).foldlM (concatStep rows baselines cal_pt_per_mv) []

theorem isSome_option_map {α β : Type} (o : Option α) (f : α → β) :
    (o.map f).isSome = o.isSome := by
  cases o <;> rfl

/-- C8: a black path of width in `(0.35, 0.45)` with exactly 39 segments is
skipped by the row reconstructor (it contributes no points to any row, and
the whole row extraction is unchanged by its presence), while an otherwise
identical path with exactly 40 segments passes the guards and reaches the
assignment stage. -/
theorem row_segment_threshold (paths₁ paths₂ : List DrawingPath) (baselines : List ℚ)
    (p q : DrawingPath)
    (hpc : p.color = (0, 0, 0)) (hpw : 7/20 < p.width ∧ p.width < 9/20)
    (hp39 : p.segments.length = 39)
    (hqc : q.color = (0, 0, 0)) (hqw : 7/20 < q.width ∧ q.width < 9/20)
    (hq40 : q.segments.length = 40) :
    extract_ecg_waveform_rows (paths₁ ++ p :: paths₂) baselines =
      extract_ecg_waveform_rows (paths₁ ++ paths₂) baselines ∧
    (∀ m, rowStep baselines m p = m) ∧
    (∀ m, rowStep baselines m q = rowAssign baselines m q) := by
  have hskip : ∀ m, rowStep baselines m p = m := by
    intro m
    unfold rowStep
    rw [if_neg (by simp [hpc]), if_neg (not_not_intro hpw), if_pos (by omega)]
  have hgo : ∀ m, rowStep baselines m q = rowAssign baselines m q := by
    intro m
    unfold rowStep
    rw [if_neg (by simp [hqc]), if_neg (not_not_intro hqw), if_neg (by omega)]
  refine ⟨?_, hskip, hgo⟩
  unfold extract_ecg_waveform_rows
  rw [List.foldl_append, List.foldl_append, List.foldl_cons, hskip]

/-- Witness for C8: concrete 39- and 40-segment paths of width 0.4. -/
theorem row_segment_threshold_witness :
    extract_ecg_waveform_rows
        ([] ++ DrawingPath.mk (List.replicate 39 ((⟨0, 0⟩, ⟨0, 0⟩) : Point × Point))
          (0, 0, 0) (2/5) :: []) [] =
      extract_ecg_waveform_rows ([] ++ []) [] ∧
    (∀ m, rowStep [] m (DrawingPath.mk (List.replicate 39 ((⟨0, 0⟩, ⟨0, 0⟩) : Point × Point))
      (0, 0, 0) (2/5)) = m) ∧
    (∀ m, rowStep [] m (DrawingPath.mk (List.replicate 40 ((⟨0, 0⟩, ⟨0, 0⟩) : Point × Point))
        (0, 0, 0) (2/5)) =
      rowAssign [] m (DrawingPath.mk (List.replicate 40 ((⟨0, 0⟩, ⟨0, 0⟩) : Point × Point))
        (0, 0, 0) (2/5))) :=
  row_segment_threshold [] [] []
    (DrawingPath.mk (List.replicate 39 ((⟨0, 0⟩, ⟨0, 0⟩) : Point × Point)) (0, 0, 0) (2/5))
    (DrawingPath.mk (List.replicate 40 ((⟨0, 0⟩, ⟨0, 0⟩) : Point × Point)) (0, 0, 0) (2/5))
    rfl ⟨by norm_num, by norm_num⟩ (by simp)
    rfl ⟨by norm_num, by norm_num⟩ (by simp)

theorem find?_isSome_map_keyeq (g : ℕ × List Point → ℕ × List Point)
    (hg : ∀ e, (g e).1 = e.1) (m : List (ℕ × List Point)) (j : ℕ) :
    ((m.map g).find? (fun e => e.1 == j)).isSome =
      ((m.find? (fun e => e.1 == j))).isSome := by
  induction m with
  | nil => rfl
  | cons e t ih =>
    have h1 : ((g e).1 == j) = (e.1 == j) := by rw [hg e]
    simp only [List.map_cons, List.find?]
    rw [h1]
    cases hej : (e.1 == j)
    · simpa using ih
    · simp

theorem mapGet_mapExtend_isSome (m : List (ℕ × List Point)) (k j : ℕ) (pts : List Point)
    (h : (mapGet m j).isSome) : (mapGet (mapExtend m k pts) j).isSome := by
  unfold mapGet at h ⊢
  rw [isSome_option_map] at h ⊢
  unfold mapExtend
  by_cases hk : ((m.find? (fun e => e.1 == k))).isSome
  · rw [if_pos hk]
    rw [find?_isSome_map_keyeq (fun e => if e.1 == k then (e.1, e.2 ++ pts) else e)
      (fun e => by cases hek : (e.1 == k) <;> simp [hek])]
    exact h
  · rw [if_neg hk, List.find?_append]
    cases hf : m.find? (fun e => e.1 == j) with
    | none => rw [hf] at h; simp at h
    | some v => simp [hf]

theorem rowAssign_preserves (baselines : List ℚ) (m : List (ℕ × List Point))
    (p : DrawingPath) (j : ℕ) (h : (mapGet m j).isSome) :
    (mapGet (rowAssign baselines m p) j).isSome := by
  unfold rowAssign
  by_cases he : (tracePoints p.segments).isEmpty
  · rw [if_pos he]
    exact h
  · rw [if_neg he]
    cases hnr : (nearestRow baselines
        (((tracePoints p.segments).map (fun q => q.y)).sum /
          ((tracePoints p.segments).length : ℚ))).1 with
    | none => simpa [hnr] using h
    | some md =>
      simp only [hnr]
      by_cases hmd : md < 80
      · rw [if_pos hmd]
        exact mapGet_mapExtend_isSome _ _ _ _ h
      · rw [if_neg hmd]
        exact h

theorem rowStep_preserves (baselines : List ℚ) (m : List (ℕ × List Point))
    (p : DrawingPath) (j : ℕ) (h : (mapGet m j).isSome) :
    (mapGet (rowStep baselines m p) j).isSome := by
  unfold rowStep
  by_cases h1 : p.color.1 ≠ 0 ∨ p.color.2.1 ≠ 0 ∨ p.color.2.2 ≠ 0
  · rw [if_pos h1]; exact h
  · rw [if_neg h1]
    by_cases h2 : ¬(7/20 < p.width ∧ p.width < 9/20)
    · rw [if_pos h2]; exact h
    · rw [if_neg h2]
      by_cases h3 : p.segments.length < 40
      · rw [if_pos h3]; exact h
      · rw [if_neg h3]
        exact rowAssign_preserves _ _ _ _ h

theorem foldl_rowStep_preserves (baselines : List ℚ) (paths : List DrawingPath) :
    ∀ (m : List (ℕ × List Point)) (j : ℕ), (mapGet m j).isSome →
      (mapGet (paths.foldl (rowStep baselines) m) j).isSome := by
  induction paths with
  | nil => intro m j h; exact h
  | cons p t ih =>
    intro m j h
    rw [List.foldl_cons]
    exact ih _ _ (rowStep_preserves _ _ _ _ h)

theorem mapGet_init_range (N j : ℕ) (h : j < N) :
    mapGet ((List.range N).map (fun i => (i, ([] : List Point)))) j = some [] := by
  suffices hgen : ∀ l : List ℕ, j ∈ l → mapGet (l.map (fun i => (i, ([] : List Point)))) j = some [] by
    exact hgen _ (List.mem_range.mpr h)
  intro l hl
  induction l with
  | nil => simp at hl
  | cons i t ih =>
    by_cases hij : i = j
    · subst hij
      unfold mapGet
      simp [List.find?]
    · have hbeq : (i == j) = false := by simp [hij]
      have hmem : j ∈ t := by
        rcases List.mem_cons.mp hl with rfl | hmem
        · exact absurd rfl hij
        · exact hmem
      have := ih hmem
      unfold mapGet at this ⊢
      simpa [List.find?, hbeq] using this

theorem mapGet_sortRowPoints_isSome (m : List (ℕ × List Point)) (j : ℕ) :
    (mapGet (sortRowPoints m) j).isSome = (mapGet m j).isSome := by
  unfold mapGet sortRowPoints
  rw [isSome_option_map, isSome_option_map]
  exact find?_isSome_map_keyeq
    (fun e => (e.1, e.2.mergeSort (fun a b => decide (a.x ≤ b.x)))) (fun e => rfl) m j

/-- C9: the row mapping produced by `extract_ecg_waveform_rows` has an entry
for every baseline index, so `concatenate_to_signal` applied to it never
takes the `IncompleteRowSet` branch: it always returns `Ok`. -/
theorem rows_complete_concat_ok (paths : List DrawingPath) (baselines : List ℚ) (cal : ℚ) :
    (∀ i, i < baselines.length →
      (mapGet (extract_ecg_waveform_rows paths baselines) i).isSome) ∧
    ∃ signal,
      concatenate_to_signal (extract_ecg_waveform_rows paths baselines) baselines cal =
        .ok signal := by
  have hkeys : ∀ i, i < baselines.length →
      (mapGet (extract_ecg_waveform_rows paths baselines) i).isSome := by
    intro i hi
    unfold extract_ecg_waveform_rows
    rw [mapGet_sortRowPoints_isSome]
    apply foldl_rowStep_preserves
    rw [mapGet_init_range _ _ hi]
    rfl
  refine ⟨hkeys, ?_⟩
  unfold concatenate_to_signal
  have hgen : ∀ (l : List ℕ) (acc : List ℚ), (∀ ri ∈ l, ri < baselines.length) →
      ∃ v, (l.foldlM (concatStep (extract_ecg_waveform_rows paths baselines) baselines cal)
        acc) = .ok v := by
    intro l
    induction l with
    | nil => intro acc _; exact ⟨acc, rfl⟩
    | cons ri t ih =>
      intro acc hmem
      have hri := hkeys ri (hmem ri (List.mem_cons_self _ _))
      rw [List.foldlM_cons]
      cases hv : mapGet (extract_ecg_waveform_rows paths baselines) ri with
      | none => rw [hv] at hri; simp at hri
      | some pts =>
        have hstep : concatStep (extract_ecg_waveform_rows paths baselines) baselines cal acc ri =
            (if pts.isEmpty then pure acc
             else pure (acc ++ points_to_voltage (dedupPoints pts) (baselines.getD ri 0) cal)) := by
          unfold concatStep
          rw [hv]
        rw [hstep]
        by_cases he : pts.isEmpty
        · rw [if_pos he]
          obtain ⟨v, hv2⟩ := ih acc (fun r hr => hmem r (List.mem_cons_of_mem _ hr))
          exact ⟨v, by simpa using hv2⟩
        · rw [if_neg he]
          obtain ⟨v, hv2⟩ := ih
            (acc ++ points_to_voltage (dedupPoints pts) (baselines.getD ri 0) cal)
            (fun r hr => hmem r (List.mem_cons_of_mem _ hr))
          exact ⟨v, by simpa using hv2⟩
  exact hgen (List.range baselines.length) [] (fun ri hr => List.mem_range.mp hr)

/- ================== src/pdf_extract.rs: interpreter ================== -/

/-- Fatal error of src/pdf_extract.rs `obj_f64`: a non-numeric operand. -/
inductive PdfError where
  | malformedOperand
deriving DecidableEq

/-- A lopdf `Object` as far as `obj_f64` inspects it: a number (`Real` or
`Integer`, both read as `f64`) or anything else. -/
inductive PdfObj where
  | num (q : ℚ)
  | other
deriving DecidableEq

/-- Model of `obj_f64` from src/pdf_extract.rs lines 72–78. -/
def obj_f64 : PdfObj → Except PdfError ℚ
  | .num q => .ok q
  | .other => .error .malformedOperand

/-- The `?` operator on an `obj_f64` result: propagate the error, else
continue with the value. -/
def withNum (r : Except PdfError ℚ)
    (f : ℚ → Except PdfError InterpState) : Except PdfError InterpState :=
  match r with
  | .error e => .error e
  | .ok v => f v

/-- A CTM as the array of the six entries a, b, c, d, e, f of src/pdf_extract.rs lines 44–59. -/
structure Mat6 where
  a : ℚ
  b : ℚ
  c : ℚ
  d : ℚ
  e : ℚ
  f : ℚ
deriving DecidableEq

/-- Model of `multiply_ctm` from src/pdf_extract.rs lines 50–59. -/
def multiply_ctm (m1 m2 : Mat6) : Mat6 :=
  ⟨m1.a * m2.a + m1.c * m2.b,
   m1.b * m2.a + m1.d * m2.b,
   m1.a * m2.c + m1.c * m2.d,
   m1.b * m2.c + m1.d * m2.d,
   m1.a * m2.e + m1.c * m2.f + m1.e,
   m1.b * m2.e + m1.d * m2.f + m1.f⟩

/-- Model of `transform_point` from src/pdf_extract.rs lines 62–69: apply the CTM,
then flip y to top-left origin. -/
def transform_point (x y : ℚ) (ctm : Mat6) (page_height : ℚ) : Point :=
  ⟨ctm.a * x + ctm.c * y + ctm.e, page_height - (ctm.b * x + ctm.d * y + ctm.f)⟩

/-- Model of `GraphicsState` from src/pdf_extract.rs lines 23–42. -/
structure GraphicsState where
  ctm : Mat6
  stroke_color : ℚ × ℚ × ℚ
  line_width : ℚ
deriving DecidableEq

/-- Model of `GraphicsState::default()`: identity CTM, black stroke, unit width. -/
def initGraphicsState : GraphicsState :=
  ⟨⟨1, 0, 0, 1, 0, 0⟩, (0, 0, 0), 1⟩

/-- One content-stream operation: operator name and operand list. -/
structure PdfOp where
  operator : String
  operands : List PdfObj
deriving DecidableEq

/-- The interpreter's mutable locals in `extract_paths`
(src/pdf_extract.rs lines 128–133). -/
structure InterpState where
  gs : GraphicsState
  stack : List GraphicsState
  segments : List (Point × Point)
  pos : Point
  start : Point
  paths : List DrawingPath
deriving DecidableEq

/-- Model of `emit_path` from src/pdf_extract.rs lines 321–333: push a `DrawingPath`
with the current color/width and drain the segment accumulator, only when the
accumulator is non-empty. -/
def emit_path (st : InterpState) : InterpState :=
  if st.segments.isEmpty then st
  else { st with
    paths := st.paths ++ [⟨st.segments, st.gs.stroke_color, st.gs.line_width⟩],
    segments := [] }

/-- One iteration of the operator loop of `extract_paths`
(src/pdf_extract.rs lines 135–316). -/
def pdfStep (page_height : ℚ) (st : InterpState) (op : PdfOp) :
    Except PdfError InterpState :=
  match op.operator with
  | "q" => .ok { st with stack := st.gs :: st.stack }
  | "Q" =>
    .ok (match st.stack with
         | [] => st
         | s :: rest => { st with gs := s, stack := rest })
  | "cm" =>
    match op.operands with
    | [a, b, c, d, e, f] =>
      withNum (obj_f64 a) fun a =>
      withNum (obj_f64 b) fun b =>
      withNum (obj_f64 c) fun c =>
      withNum (obj_f64 d) fun d =>
      withNum (obj_f64 e) fun e =>
      withNum (obj_f64 f) fun f =>
      .ok { st with gs :=
        { st.gs with ctm := multiply_ctm st.gs.ctm ⟨a, b, c, d, e, f⟩ } }
    | _ => .ok st
  | "w" =>
    match op.operands with
    | w :: _ =>
      withNum (obj_f64 w) fun v =>
      .ok { st with gs := { st.gs with line_width := v } }
    | [] => .ok st
  | "RG" =>
    match op.operands with
    | [r, g, b] =>
      withNum (obj_f64 r) fun r =>
      withNum (obj_f64 g) fun g =>
      withNum (obj_f64 b) fun b =>
      .ok { st with gs := { st.gs with stroke_color := (r, g, b) } }
    | _ => .ok st
  | "G" =>
    match op.operands with
    | g :: _ =>
      withNum (obj_f64 g) fun v =>
      .ok { st with gs := { st.gs with stroke_color := (v, v, v) } }
    | [] => .ok st
  | "K" =>
    match op.operands with
    | [c, m, y, k] =>
      withNum (obj_f64 c) fun c =>
      withNum (obj_f64 m) fun m =>
      withNum (obj_f64 y) fun y =>
      withNum (obj_f64 k) fun k =>
      .ok { st with gs := { st.gs with stroke_color :=
        ((1 - c) * (1 - k), (1 - m) * (1 - k), (1 - y) * (1 - k)) } }
    | _ => .ok st
  | "SC" | "SCN" =>
    match op.operands with
    | [a] =>
      withNum (obj_f64 a) fun v =>
      .ok { st with gs := { st.gs with stroke_color := (v, v, v) } }
    | [a, b, c] =>
      withNum (obj_f64 a) fun a =>
      withNum (obj_f64 b) fun b =>
      withNum (obj_f64 c) fun c =>
      .ok { st with gs := { st.gs with stroke_color := (a, b, c) } }
    | [o1, o2, o3, o4] =>
      withNum (obj_f64 o1) fun c =>
      withNum (obj_f64 o2) fun m =>
      withNum (obj_f64 o3) fun y =>
      withNum (obj_f64 o4) fun k =>
      .ok { st with gs := { st.gs with stroke_color :=
        ((1 - c) * (1 - k), (1 - m) * (1 - k), (1 - y) * (1 - k)) } }
    | _ => .ok st
  | "m" =>
    match op.operands with
    | [x, y] =>
      withNum (obj_f64 x) fun x =>
      withNum (obj_f64 y) fun y =>
      .ok { st with
        pos := transform_point x y st.gs.ctm page_height,
        start := transform_point x y st.gs.ctm page_height }
    | _ => .ok st
  | "l" =>
    match op.operands with
    | [x, y] =>
      withNum (obj_f64 x) fun x =>
      withNum (obj_f64 y) fun y =>
      .ok { st with
        segments := st.segments ++ [(st.pos, transform_point x y st.gs.ctm page_height)],
        pos := transform_point x y st.gs.ctm page_height }
    | _ => .ok st
  | "h" =>
    .ok (if |st.pos.x - st.start.x| > 1/1000 ∨ |st.pos.y - st.start.y| > 1/1000 then
      { st with segments := st.segments ++ [(st.pos, st.start)], pos := st.start }
    else st)
  | "re" =>
    match op.operands with
    | [rx, ry, rw, rh] =>
      withNum (obj_f64 rx) fun rx =>
      withNum (obj_f64 ry) fun ry =>
      withNum (obj_f64 rw) fun rw =>
      withNum (obj_f64 rh) fun rh =>
      .ok { st with
        segments := st.segments ++
          [(transform_point rx ry st.gs.ctm page_height,
            transform_point (rx + rw) ry st.gs.ctm page_height),
           (transform_point (rx + rw) ry st.gs.ctm page_height,
            transform_point (rx + rw) (ry + rh) st.gs.ctm page_height),
           (transform_point (rx + rw) (ry + rh) st.gs.ctm page_height,
            transform_point rx (ry + rh) st.gs.ctm page_height),
           (transform_point rx (ry + rh) st.gs.ctm page_height,
            transform_point rx ry st.gs.ctm page_height)],
        pos := transform_point rx ry st.gs.ctm page_height,
        start := transform_point rx ry st.gs.ctm page_height }
    | _ => .ok st
  | "S" => .ok (emit_path st)
  | "s" =>
    .ok (emit_path
      (if |st.pos.x - st.start.x| > 1/1000 ∨ |st.pos.y - st.start.y| > 1/1000 then
        { st with segments := st.segments ++ [(st.pos, st.start)] }
      else st))
  | "f" | "F" | "f*" => .ok { st with segments := [] }
  | "B" | "B*" | "b" | "b*" => .ok (emit_path st)
  | "n" => .ok { st with segments := [] }
  | _ => .ok st

/-- The interpreter's initial locals (src/pdf_extract.rs lines 128–133). -/
def initInterpState : InterpState :=
  ⟨initGraphicsState, [], [], ⟨0, 0⟩, ⟨0, 0⟩, []⟩

/-- The operator loop of `extract_paths`, returning the final locals. -/
def runOps (page_height : ℚ) (ops : List PdfOp) : Except PdfError InterpState :=
  ops.foldlM (pdfStep page_height) initInterpState

/-- Model of `extract_paths` from src/pdf_extract.rs lines 120–319, over the decoded
operator list of the page's content stream. -/
def extract_paths (ops : List PdfOp) (page_height : ℚ) :
    Except PdfError (List DrawingPath) :=
  (runOps page_height ops).map (fun st => st.paths)

theorem except_ok_bind {ε α β : Type} (x : α) (f : α → Except ε β) :
    (Except.ok x >>= f) = f x := rfl

theorem except_map_ok {ε α β : Type} (f : α → β) (x : α) :
    (Except.map f (Except.ok x) : Except ε β) = .ok (f x) := rfl

/-- C5 counterexample: after `m (0,0)`, `l (10,0)`, `s` (with the current
point 10 units from the subpath start, beyond the 0.001 tolerance), the
current point is still `(10, 0)` — not the subpath start `(0, 0)`. -/
theorem close_stroke_cex :
    (runOps 0 [⟨"m", [.num 0, .num 0]⟩, ⟨"l", [.num 10, .num 0]⟩, ⟨"s", []⟩]).map
        (fun st => (st.pos, st.start)) = .ok (⟨10, 0⟩, ⟨0, 0⟩) ∧
    |(10 : ℚ) - 0| > 1/1000 ∧
    (⟨10, 0⟩ : Point) ≠ (⟨0, 0⟩ : Point) := by
  refine ⟨?_, by norm_num, by intro hcon; rw [Point.mk.injEq] at hcon; norm_num at hcon⟩
  norm_num [runOps, List.foldlM_cons, List.foldlM_nil, pdfStep, obj_f64, withNum,
    transform_point, emit_path, initInterpState, initGraphicsState, lt_abs,
    except_ok_bind, except_map_ok, List.cons_ne_nil]

/-- C5 (amended): when the close-then-stroke operator `s` finds the current
point beyond the 0.001 tolerance from the subpath start, it appends the
closing segment and emits the path, but leaves the current point (and the
subpath start) unchanged — it does not reset the current point to the
subpath start. -/
theorem close_stroke_no_pos_reset (page_height : ℚ) (st : InterpState)
    (args : List PdfObj)
    (h : |st.pos.x - st.start.x| > 1/1000 ∨ |st.pos.y - st.start.y| > 1/1000) :
    pdfStep page_height st ⟨"s", args⟩ =
      .ok { st with
        segments := [],
        paths := st.paths ++ [⟨st.segments ++ [(st.pos, st.start)],
          st.gs.stroke_color, st.gs.line_width⟩] } := by
  show Except.ok (emit_path
      (if |st.pos.x - st.start.x| > 1/1000 ∨ |st.pos.y - st.start.y| > 1/1000 then
        { st with segments := st.segments ++ [(st.pos, st.start)] }
      else st)) = _
  rw [if_pos h]
  unfold emit_path
  rw [if_neg (by simp)]

/-- Witness for the amended C5 at a concrete interpreter state. -/
theorem close_stroke_no_pos_reset_witness :
    (|(10 : ℚ) - 0| > 1/1000 ∨ |(0 : ℚ) - 0| > 1/1000) ∧
    pdfStep 0 ⟨initGraphicsState, [], [], ⟨10, 0⟩, ⟨0, 0⟩, []⟩ ⟨"s", []⟩ =
      .ok ⟨initGraphicsState, [], [], ⟨10, 0⟩, ⟨0, 0⟩,
        [⟨[(⟨10, 0⟩, ⟨0, 0⟩)], (0, 0, 0), 1⟩]⟩ :=
  ⟨Or.inl (by norm_num),
    close_stroke_no_pos_reset 0 ⟨initGraphicsState, [], [], ⟨10, 0⟩, ⟨0, 0⟩, []⟩ []
      (Or.inl (by norm_num))⟩

theorem emit_path_nonempty (st : InterpState)
    (h : ∀ p ∈ st.paths, p.segments ≠ []) :
    ∀ p ∈ (emit_path st).paths, p.segments ≠ [] := by
  unfold emit_path
  by_cases he : st.segments.isEmpty
  · rw [if_pos he]
    exact h
  · rw [if_neg he]
    intro p hp
    rcases List.mem_append.mp hp with hp | hp
    · exact h p hp
    · rw [List.mem_singleton] at hp
      subst hp
      intro hcon
      exact he (by simp_all)

theorem withNum_ok (r : Except PdfError ℚ) (f : ℚ → Except PdfError InterpState)
    (st' : InterpState) (h : withNum r f = .ok st') :
    ∃ v, r = .ok v ∧ f v = .ok st' := by
  cases r with
  | error e => exact Except.noConfusion h
  | ok v => exact ⟨v, rfl, h⟩

theorem pdfStep_nonempty (page_height : ℚ) (st : InterpState) (op : PdfOp)
    (st' : InterpState) (hok : pdfStep page_height st op = .ok st')
    (hinv : ∀ p ∈ st.paths, p.segments ≠ []) : ∀ p ∈ st'.paths, p.segments ≠ [] := by
  unfold pdfStep at hok
  split at hok
  · injection hok with h
    subst h
    exact hinv
  · injection hok with h
    subst h
    split <;> exact hinv
  · split at hok
    · unfold withNum at hok
      split at hok
      · exact Except.noConfusion hok
      beta_reduce at hok
      split at hok
      · exact Except.noConfusion hok
      beta_reduce at hok
      split at hok
      · exact Except.noConfusion hok
      beta_reduce at hok
      split at hok
      · exact Except.noConfusion hok
      beta_reduce at hok
      split at hok
      · exact Except.noConfusion hok
      beta_reduce at hok
      split at hok
      · exact Except.noConfusion hok
      beta_reduce at hok
      injection hok with h
      subst h
      exact hinv
    · injection hok with h
      subst h
      exact hinv
  · split at hok
    · unfold withNum at hok
      split at hok
      · exact Except.noConfusion hok
      beta_reduce at hok
      injection hok with h
      subst h
      exact hinv
    · injection hok with h
      subst h
      exact hinv
  · split at hok
    · unfold withNum at hok
      split at hok
      · exact Except.noConfusion hok
      beta_reduce at hok
      split at hok
      · exact Except.noConfusion hok
      beta_reduce at hok
      split at hok
      · exact Except.noConfusion hok
      beta_reduce at hok
      injection hok with h
      subst h
      exact hinv
    · injection hok with h
      subst h
      exact hinv
  · split at hok
    · unfold withNum at hok
      split at hok
      · exact Except.noConfusion hok
      beta_reduce at hok
      injection hok with h
      subst h
      exact hinv
    · injection hok with h
      subst h
      exact hinv
  · split at hok
    · unfold withNum at hok
      split at hok
      · exact Except.noConfusion hok
      beta_reduce at hok
      split at hok
      · exact Except.noConfusion hok
      beta_reduce at hok
      split at hok
      · exact Except.noConfusion hok
      beta_reduce at hok
      split at hok
      · exact Except.noConfusion hok
      beta_reduce at hok
      injection hok with h
      subst h
      exact hinv
    · injection hok with h
      subst h
      exact hinv
  · split at hok
    · unfold withNum at hok
      split at hok
      · exact Except.noConfusion hok
      beta_reduce at hok
      injection hok with h
      subst h
      exact hinv
    · unfold withNum at hok
      split at hok
      · exact Except.noConfusion hok
      beta_reduce at hok
      split at hok
      · exact Except.noConfusion hok
      beta_reduce at hok
      split at hok
      · exact Except.noConfusion hok
      beta_reduce at hok
      injection hok with h
      subst h
      exact hinv
    · unfold withNum at hok
      split at hok
      · exact Except.noConfusion hok
      beta_reduce at hok
      split at hok
      · exact Except.noConfusion hok
      beta_reduce at hok
      split at hok
      · exact Except.noConfusion hok
      beta_reduce at hok
      split at hok
      · exact Except.noConfusion hok
      beta_reduce at hok
      injection hok with h
      subst h
      exact hinv
    · injection hok with h
      subst h
      exact hinv
  · split at hok
    · unfold withNum at hok
      split at hok
      · exact Except.noConfusion hok
      beta_reduce at hok
      injection hok with h
      subst h
      exact hinv
    · unfold withNum at hok
      split at hok
      · exact Except.noConfusion hok
      beta_reduce at hok
      split at hok
      · exact Except.noConfusion hok
      beta_reduce at hok
      split at hok
      · exact Except.noConfusion hok
      beta_reduce at hok
      injection hok with h
      subst h
      exact hinv
    · unfold withNum at hok
      split at hok
      · exact Except.noConfusion hok
      beta_reduce at hok
      split at hok
      · exact Except.noConfusion hok
      beta_reduce at hok
      split at hok
      · exact Except.noConfusion hok
      beta_reduce at hok
      split at hok
      · exact Except.noConfusion hok
      beta_reduce at hok
      injection hok with h
      subst h
      exact hinv
    · injection hok with h
      subst h
      exact hinv
  · split at hok
    · unfold withNum at hok
      split at hok
      · exact Except.noConfusion hok
      beta_reduce at hok
      split at hok
      · exact Except.noConfusion hok
      beta_reduce at hok
      injection hok with h
      subst h
      exact hinv
    · injection hok with h
      subst h
      exact hinv
  · split at hok
    · unfold withNum at hok
      split at hok
      · exact Except.noConfusion hok
      beta_reduce at hok
      split at hok
      · exact Except.noConfusion hok
      beta_reduce at hok
      injection hok with h
      subst h
      exact hinv
    · injection hok with h
      subst h
      exact hinv
  · injection hok with h
    subst h
    split <;> exact hinv
  · split at hok
    · unfold withNum at hok
      split at hok
      · exact Except.noConfusion hok
      beta_reduce at hok
      split at hok
      · exact Except.noConfusion hok
      beta_reduce at hok
      split at hok
      · exact Except.noConfusion hok
      beta_reduce at hok
      split at hok
      · exact Except.noConfusion hok
      beta_reduce at hok
      injection hok with h
      subst h
      exact hinv
    · injection hok with h
      subst h
      exact hinv
  · injection hok with h
    subst h
    exact emit_path_nonempty _ hinv
  · injection hok with h
    subst h
    split <;> exact emit_path_nonempty _ hinv
  · injection hok with h
    subst h
    exact hinv
  · injection hok with h
    subst h
    exact hinv
  · injection hok with h
    subst h
    exact hinv
  · injection hok with h
    subst h
    exact emit_path_nonempty _ hinv
  · injection hok with h
    subst h
    exact emit_path_nonempty _ hinv
  · injection hok with h
    subst h
    exact emit_path_nonempty _ hinv
  · injection hok with h
    subst h
    exact emit_path_nonempty _ hinv
  · injection hok with h
    subst h
    exact hinv
  · injection hok with h
    subst h
    exact hinv

theorem runOps_paths_nonempty (page_height : ℚ) (ops : List PdfOp) :
    ∀ st st', (∀ p ∈ st.paths, p.segments ≠ []) →
      ops.foldlM (pdfStep page_height) st = .ok st' →
      ∀ p ∈ st'.paths, p.segments ≠ [] := by
  induction ops with
  | nil =>
    intro st st' hinv hok
    rw [List.foldlM_nil] at hok
    injection hok with h
    subst h
    exact hinv
  | cons op t ih =>
    intro st st' hinv hok
    rw [List.foldlM_cons] at hok
    cases hstep : pdfStep page_height st op with
    | error e =>
      rw [hstep] at hok
      simp [Bind.bind, Except.bind] at hok
    | ok st1 =>
      rw [hstep] at hok
      rw [except_ok_bind] at hok
      exact ih st1 st' (pdfStep_nonempty _ _ _ _ hstep hinv) hok

/-- C10 counterexample: after `m (0,0)`, `l (10,0)`, `S` the accumulator is
empty, yet the following close-then-stroke `s` (current point away from the
subpath start) emits a second `DrawingPath` — so a close-then-stroke
encountered while the accumulated segment list is empty can emit a path. -/
theorem stroke_empty_emit_cex :
    extract_paths [⟨"m", [.num 0, .num 0]⟩, ⟨"l", [.num 10, .num 0]⟩, ⟨"S", []⟩] 0 =
      .ok [⟨[(⟨0, 0⟩, ⟨10, 0⟩)], (0, 0, 0), 1⟩] ∧
    extract_paths
        [⟨"m", [.num 0, .num 0]⟩, ⟨"l", [.num 10, .num 0]⟩, ⟨"S", []⟩, ⟨"s", []⟩] 0 =
      .ok [⟨[(⟨0, 0⟩, ⟨10, 0⟩)], (0, 0, 0), 1⟩,
           ⟨[(⟨10, 0⟩, ⟨0, 0⟩)], (0, 0, 0), 1⟩] := by
  constructor <;>
    norm_num [extract_paths, runOps, List.foldlM_cons, List.foldlM_nil, pdfStep,
      obj_f64, withNum, transform_point, emit_path, initInterpState,
      initGraphicsState, lt_abs, except_ok_bind, except_map_ok, List.cons_ne_nil]

/-- C10 (amended): every `DrawingPath` in a successful `extract_paths` output
has a non-empty segment list; a stroke (`S`) or fill-and-stroke
(`B`/`B*`/`b`/`b*`) operator with an empty accumulator emits nothing and
leaves the state unchanged, and a close-then-stroke (`s`) with an empty
accumulator emits nothing only when the current point is within the 0.001
tolerance of the subpath start (otherwise it emits the single closing
segment). -/
theorem extract_paths_nonempty_segments (ops : List PdfOp) (page_height : ℚ)
    (paths : List DrawingPath) (hok : extract_paths ops page_height = .ok paths) :
    (∀ p ∈ paths, p.segments ≠ []) ∧
    (∀ (st : InterpState) (args : List PdfObj), st.segments = [] →
      pdfStep page_height st ⟨"S", args⟩ = .ok st ∧
      pdfStep page_height st ⟨"B", args⟩ = .ok st ∧
      pdfStep page_height st ⟨"B*", args⟩ = .ok st ∧
      pdfStep page_height st ⟨"b", args⟩ = .ok st ∧
      pdfStep page_height st ⟨"b*", args⟩ = .ok st ∧
      (¬(|st.pos.x - st.start.x| > 1/1000 ∨ |st.pos.y - st.start.y| > 1/1000) →
        pdfStep page_height st ⟨"s", args⟩ = .ok st)) := by
  constructor
  · unfold extract_paths at hok
    cases hrun : runOps page_height ops with
    | error e =>
      rw [hrun] at hok
      simp [Except.map] at hok
    | ok stf =>
      rw [hrun, except_map_ok] at hok
      injection hok with h
      subst h
      exact runOps_paths_nonempty page_height ops initInterpState stf
        (by intro p hp; simp [initInterpState] at hp) hrun
  · intro st args hseg
    have hemit : emit_path st = st := by
      unfold emit_path
      rw [if_pos (by simp [hseg])]
    refine ⟨?_, ?_, ?_, ?_, ?_, ?_⟩
    · show Except.ok (emit_path st) = .ok st
      rw [hemit]
    · show Except.ok (emit_path st) = .ok st
      rw [hemit]
    · show Except.ok (emit_path st) = .ok st
      rw [hemit]
    · show Except.ok (emit_path st) = .ok st
      rw [hemit]
    · show Except.ok (emit_path st) = .ok st
      rw [hemit]
    · intro htol
      show Except.ok (emit_path
          (if |st.pos.x - st.start.x| > 1/1000 ∨ |st.pos.y - st.start.y| > 1/1000 then
            { st with segments := st.segments ++ [(st.pos, st.start)] }
          else st)) = .ok st
      rw [if_neg htol, hemit]

/-- Witness for the amended C10 at the empty operator list. -/
theorem extract_paths_nonempty_segments_witness :
    (∀ p ∈ ([] : List DrawingPath), p.segments ≠ []) ∧
    (∀ (st : InterpState) (args : List PdfObj), st.segments = [] →
      pdfStep 0 st ⟨"S", args⟩ = .ok st ∧
      pdfStep 0 st ⟨"B", args⟩ = .ok st ∧
      pdfStep 0 st ⟨"B*", args⟩ = .ok st ∧
      pdfStep 0 st ⟨"b", args⟩ = .ok st ∧
      pdfStep 0 st ⟨"b*", args⟩ = .ok st ∧
      (¬(|st.pos.x - st.start.x| > 1/1000 ∨ |st.pos.y - st.start.y| > 1/1000) →
        pdfStep 0 st ⟨"s", args⟩ = .ok st)) :=
  extract_paths_nonempty_segments [] 0 [] rfl
